import Mathlib

/-!
Verification of the record-manager core in `src/BD_DOCENTES_STLL.py`.

Strings are modelled as lists of characters (`Str := List Char`), restricted
to the ASCII fragment the program manipulates: Python's `\s`, `\d`, `\w`,
`str.upper`, `str.lower` are modelled by their ASCII behaviour.
-/

namespace Gestor

abbrev Str := List Char

/-- Coerce a Lean string literal to the `List Char` model. -/
def sl (s : String) : Str := s.data

/-- ASCII whitespace, as matched by Python's regex class `\s`. -/
def isPySpace (c : Char) : Bool :=
  c = ' ' || c = '\t' || c = '\n' || c = '\r' || c = '\x0b' || c = '\x0c'

/-- Characters removed by `clean_rut`: the regex class `[.\-\s]`. -/
def isSep (c : Char) : Bool :=
  c = '.' || c = '-' || isPySpace c

/-- `GestorDocentes.clean_rut`: drop dots, hyphens and whitespace, uppercase. -/
def clean_rut (r : Str) : Str :=
  (r.filter (fun c => !isSep c)).map Char.toUpper

/-- `GestorDocentes.format_rut`: normalize, and if at least two characters
remain, insert a hyphen before the last one; otherwise return the input. -/
def format_rut (r : Str) : Str :=
  let rn := clean_rut r
  if rn.length < 2 then r
  else rn.dropLast ++ ['-', rn.getLastD ' ']

/-- A valid check character: the regex class `[0-9K]`. -/
def isDv (c : Char) : Bool := c.isDigit || c = 'K'

/-- The shape test `re.match(r"^\d{7,8}[0-9K]$", s)`: 7 or 8 digits followed
by one check character, i.e. total length 8 or 9, all but the last character
a digit, and the last character a digit or `K`. -/
def rutShape (s : Str) : Bool :=
  (s.length = 8 || s.length = 9) && s.dropLast.all Char.isDigit
    && isDv (s.getLastD ' ')

/-- Numeric value of an ASCII digit character (`int(c)`). -/
def digitVal (c : Char) : Nat := c.toNat - '0'.toNat

/-- The weight table `factors = [2, 3, 4, 5, 6, 7]`. -/
def factors : List Nat := [2, 3, 4, 5, 6, 7]

/-- The accumulation loop of `validar_rut`: for each digit (least significant
first) add `d * factors[factor_index]` and step
`factor_index = (factor_index + 1) % len(factors)`. -/
def rutSumGo : List Nat → Nat → Nat → Nat
  | [], _, total => total
  | d :: ds, fi, total => rutSumGo ds ((fi + 1) % 6) (total + d * factors.getD fi 0)

/-- The check-character map: `'K' if mod == 10 else '0' if mod == 11 else str(mod)`. -/
def dvOfMod (m : Nat) : Char :=
  if m = 10 then 'K' else if m = 11 then '0' else Char.ofNat ('0'.toNat + m)

/-- `GestorDocentes.validar_rut`, translated clause by clause from the source. -/
def validar_rut (rut : Str) : Bool :=
  let rc := clean_rut rut
  if rutShape rc then
    let num := rc.dropLast
    let total := rutSumGo (num.reverse.map digitVal) 0 0
    decide (dvOfMod (11 - total % 11) = rc.getLastD ' ')
  else false

/-- The cyclic weight sequence of the claim: position `i` (counting from the
least significant digit) carries weight `[2,3,4,5,6,7][i % 6]`. -/
def cyclicWeights (n : Nat) : List Nat :=
  (List.range n).map (fun i => factors.getD (i % 6) 0)

/-- Check character as the claim words it: pair the least-significant-first
digits with the cyclic weights, sum the products, map `11 - (sum mod 11)`. -/
def specCheckChar (ds : List Nat) : Char :=
  dvOfMod (11 - (List.zipWith (· * ·) ds (cyclicWeights ds.length)).sum % 11)

/-- The validator exactly as claim C1 describes it: the normalized string
matches the 7-8-digits-plus-check-character shape and the check character
computed from the digit prefix equals the supplied one. -/
def validar_rut_claim (rut : Str) : Bool :=
  let rc := clean_rut rut
  rutShape rc && decide (specCheckChar (rc.dropLast.reverse.map digitVal) = rc.getLastD ' ')

lemma rutSumGo_eq (ds : List Nat) : ∀ fi total, fi < 6 →
    rutSumGo ds fi total =
      total + (List.zipWith (· * ·) ds
        ((List.range ds.length).map (fun i => factors.getD ((fi + i) % 6) 0))).sum := by
  induction ds with
  | nil => intro fi total _; simp [rutSumGo]
  | cons d ds ih =>
    intro fi total hfi
    have h6 : (fi + 1) % 6 < 6 := Nat.mod_lt _ (by norm_num)
    rw [rutSumGo, ih _ _ h6]
    rw [List.length_cons, List.range_succ_eq_map]
    simp only [List.map_cons, List.zipWith_cons_cons, List.sum_cons, List.map_map]
    have hmap : (List.range ds.length).map
          ((fun i => factors.getD ((fi + i) % 6) 0) ∘ Nat.succ)
        = (List.range ds.length).map (fun i => factors.getD (((fi + 1) % 6 + i) % 6) 0) := by
      apply List.map_congr_left
      intro a _
      simp only [Function.comp]
      rw [Nat.mod_add_mod]
      congr 1
      omega
    rw [hmap]
    have hw : factors.getD ((fi + 0) % 6) 0 = factors.getD fi 0 := by
      rw [Nat.add_zero, Nat.mod_eq_of_lt hfi]
    rw [hw]
    ring

lemma validar_rut_eq_claim (x : Str) : validar_rut x = validar_rut_claim x := by
  unfold validar_rut validar_rut_claim
  cases h : rutShape (clean_rut x) with
  | false => simp [h]
  | true =>
    simp only [h, if_true, Bool.true_and]
    congr 1
    unfold specCheckChar cyclicWeights
    rw [rutSumGo_eq _ 0 0 (by norm_num)]
    simp only [Nat.zero_add, Nat.zero_add, zero_add]

/-- Claim C1: `validar_rut` returns true iff the normalized input matches
7-8 digits plus a check character in {0-9, K} and the check character
computed by the cyclic-weight algorithm over the digit prefix (least
significant digit first, weights `[2,3,4,5,6,7]` wrapping, `11 - sum % 11`,
10 ↦ 'K', 11 ↦ '0', else the decimal digit) equals the supplied one; in
particular `validar_rut "12345678-5"` is true. -/
theorem c1_validar_rut_correct (x : Str) :
    validar_rut x = validar_rut_claim x ∧ validar_rut (sl "12345678-5") = true :=
  ⟨validar_rut_eq_claim x, by decide⟩

/-! ### Pagination (`GestorDocentes.paginar`) -/

/-- The pages produced by `paginar`: `pages = (total + page_size - 1) // page_size`
and page `i` is the slice `df.iloc[i*page_size : i*page_size + page_size]`. -/
def paginarPages {α : Type} (rows : List α) (ps : Nat) : List (List α) :=
  (List.range ((rows.length + ps - 1) / ps)).map fun i => (rows.drop (i * ps)).take ps

lemma pages_succ {ps : Nat} (hps : 1 ≤ ps) {n : Nat} (hn : 1 ≤ n) :
    (n + ps - 1) / ps = (n - 1) / ps + 1 := by
  have h : n + ps - 1 = (n - 1) + ps := by omega
  rw [h, Nat.add_div_right _ (by omega)]

lemma paginarPages_flatten {α : Type} (ps : Nat) (hps : 1 ≤ ps) :
    ∀ rows : List α, (paginarPages rows ps).flatten = rows := by
  suffices H : ∀ n (rows : List α), rows.length = n → (paginarPages rows ps).flatten = rows by
    exact fun rows => H rows.length rows rfl
  intro n
  induction n using Nat.strong_induction_on with
  | _ n ih =>
    intro rows hlen
    rcases Nat.eq_zero_or_pos n with h0 | hpos
    · subst h0
      have : rows = [] := List.length_eq_zero.mp hlen
      subst this
      have : (0 + ps - 1) / ps = 0 := Nat.div_eq_of_lt (by omega)
      simp [paginarPages, this]
    · have hone : 1 ≤ rows.length := by omega
      have hsplit : (rows.length + ps - 1) / ps = (rows.length - 1) / ps + 1 :=
        pages_succ hps hone
      have hdrop_pages : (rows.length - ps + ps - 1) / ps = (rows.length - 1) / ps := by
        rcases Nat.lt_or_ge ps rows.length with hgt | hle
        · have h1 : rows.length - ps + ps - 1 = (rows.length - ps - 1) + ps := by omega
          have h2 : rows.length - 1 = (rows.length - ps - 1) + ps := by omega
          rw [h1, h2]
        · have h1 : rows.length - ps = 0 := by omega
          rw [h1]
          have h2 : 0 + ps - 1 = ps - 1 := by omega
          rw [h2, Nat.div_eq_of_lt (by omega), Nat.div_eq_of_lt (by omega)]
      have hrec : (paginarPages (rows.drop ps) ps).flatten = rows.drop ps :=
        ih (rows.length - ps) (by omega) _ (by simp)
      unfold paginarPages at hrec
      rw [List.length_drop, hdrop_pages] at hrec
      unfold paginarPages
      rw [hsplit, List.range_succ_eq_map, List.map_cons, List.flatten_cons, List.map_map]
      have hmap : (List.range ((rows.length - 1) / ps)).map
            ((fun i => (rows.drop (i * ps)).take ps) ∘ Nat.succ)
          = (List.range ((rows.length - 1) / ps)).map
            (fun i => ((rows.drop ps).drop (i * ps)).take ps) := by
        apply List.map_congr_left
        intro i _
        simp only [Function.comp]
        rw [Nat.succ_mul, List.drop_drop, Nat.add_comm]
      rw [hmap, hrec]
      simp [List.take_append_drop]

/-- Claim C5: for `pageSize ≥ 1` pagination yields exactly `ceil(n / pageSize)`
pages (witnessed by `n ≤ pages * ps < n + ps`), page `i` is the slice
starting at `i * pageSize` of length at most `pageSize`, and concatenating
all pages reproduces the table. -/
theorem c5_paginar_partition {α : Type} (rows : List α) (ps : Nat) (hps : 1 ≤ ps) :
    (paginarPages rows ps).length = (rows.length + ps - 1) / ps ∧
    rows.length ≤ ((rows.length + ps - 1) / ps) * ps ∧
    ((rows.length + ps - 1) / ps) * ps < rows.length + ps ∧
    (∀ i, i < (rows.length + ps - 1) / ps →
      (paginarPages rows ps).getD i [] = (rows.drop (i * ps)).take ps) ∧
    (paginarPages rows ps).flatten = rows := by
  refine ⟨by simp [paginarPages], ?_, ?_, ?_, paginarPages_flatten ps hps rows⟩
  · have h1 := Nat.div_add_mod (rows.length + ps - 1) ps
    have h2 := Nat.mod_lt (rows.length + ps - 1) (show 0 < ps by omega)
    rw [mul_comm]
    omega
  · have h1 := Nat.div_add_mod (rows.length + ps - 1) ps
    rw [mul_comm]
    omega
  · intro i hi
    unfold paginarPages
    rw [List.getD_eq_getElem _ _ (by simpa using hi)]
    simp

/-- Witness for C5 at a concrete table and page size. -/
theorem c5_paginar_partition_witness :
    (paginarPages [1, 2, 3] 2).flatten = [1, 2, 3] :=
  (c5_paginar_partition [1, 2, 3] 2 (by norm_num)).2.2.2.2

/-! ### The interactive pagination loop and its resize handling -/

/-- A user response at the end-of-page prompt: Enter (continue), `q` (quit),
or `s` followed by a new page size. -/
inductive PagCmd : Type
  | next : PagCmd
  | quit : PagCmd
  | resize : Nat → PagCmd

/-- The body of `paginar`'s `for i in range(pages)` loop. The index list `is`
is the *frozen* iterator `range(pages)` built from the initial page count:
Python's `for` reassigns `i` from it on every iteration, so the source's
`i = -1` has no effect, and reassigning `pages` does not change the iterator.
`ps` and `pages` are the mutable page size and recomputed page count; an
exhausted command list stands for the user pressing Enter. -/
def paginarGo {α : Type} (rows : List α) (total : Nat) :
    List Nat → Nat → Nat → List PagCmd → List (List α)
  | [], _, _, _ => []
  | i :: is, ps, pages, cmds =>
    let slice := (rows.drop (i * ps)).take ps
    if i < pages - 1 then
      match cmds with
      | [] => slice :: paginarGo rows total is ps pages []
      | PagCmd.next :: cs => slice :: paginarGo rows total is ps pages cs
      | PagCmd.quit :: _ => [slice]
      | PagCmd.resize m :: cs =>
        if 1 ≤ m then slice :: paginarGo rows total is m ((total + m - 1) / m) cs
        else slice :: paginarGo rows total is ps pages cs
    else slice :: paginarGo rows total is ps pages cmds

/-- `GestorDocentes.paginar`: the displayed pages, in order, for an initial
page size and the user's prompt responses. -/
def paginar {α : Type} (rows : List α) (ps0 : Nat) (cmds : List PagCmd) : List (List α) :=
  let total := rows.length
  if total = 0 then []
  else paginarGo rows total (List.range ((total + ps0 - 1) / ps0)) ps0
    ((total + ps0 - 1) / ps0) cmds

/-- Claim C6, evaluated at the failing input: five rows, initial page size 2,
and a resize to 1 after the first page. A restart from page 0 would display
`[0,1]` and then the five one-row pages `[0] [1] [2] [3] [4]`; the code
instead continues with the stale iterator and shows `[1]` and `[2]` only,
duplicating row 1 and never reaching rows 3 and 4. -/
theorem c6_paginar_resize_no_restart :
    paginar [0, 1, 2, 3, 4] 2 [PagCmd.resize 1] = [[0, 1], [1], [2]] ∧
    paginar [0, 1, 2, 3, 4] 2 [PagCmd.resize 1]
      ≠ [[0, 1], [0], [1], [2], [3], [4]] := by
  constructor
  · rfl
  · decide

/-! ### Keyed lookup used by update and delete

`run_interactivo` locates a row by normalizing the query key and every stored
ID-column value with `clean_rut`, collecting the indices of all equal rows
(`df[ser_norm == clave_norm].index.tolist()`), and using the first
(`idx_list[0]`). Only the update branch additionally warns when more than
one row matched; the delete branch uses the first match silently. A table
is a list of rows, a row a list of cell strings indexed by column position;
the ID column is `rutIdx`. -/

/-- Whether a row's ID cell matches the query key after normalization. -/
def keyMatch (rutIdx : Nat) (key : Str) (row : List Str) : Bool :=
  decide (clean_rut (row.getD rutIdx []) = clean_rut key)

/-- The indices (from `off` upward) of the rows satisfying `P`, in table
order: the model of `df[ser_norm == clave_norm].index.tolist()`. -/
def matchIdxsFrom (P : List Str → Bool) : Nat → List (List Str) → List Nat
  | _, [] => []
  | off, r :: rs =>
    if P r then off :: matchIdxsFrom P (off + 1) rs
    else matchIdxsFrom P (off + 1) rs

/-- The lookup shared by the update and delete menu branches: the first
matching index (`idx_list[0]`), or `none` when no row matches. -/
def findByKey (rutIdx : Nat) (rows : List (List Str)) (key : Str) : Option Nat :=
  match matchIdxsFrom (keyMatch rutIdx key) 0 rows with
  | [] => none
  | i :: _ => some i

/-- The multiple-match test `len(idx_list) > 1` of the update branch only:
there the user is warned that the first match will be shown; the delete
branch performs no such check. -/
def updateWarnsMultiple (rutIdx : Nat) (rows : List (List Str)) (key : Str) : Bool :=
  decide (1 < (matchIdxsFrom (keyMatch rutIdx key) 0 rows).length)

lemma matchIdxsFrom_length (P : List Str → Bool) :
    ∀ (rows : List (List Str)) (off : Nat),
      (matchIdxsFrom P off rows).length = rows.countP P := by
  intro rows
  induction rows with
  | nil => intro off; simp [matchIdxsFrom]
  | cons r rs ih =>
    intro off
    rw [List.countP_cons]
    by_cases h : P r
    · simp [matchIdxsFrom, h, ih]
    · simp [matchIdxsFrom, h, ih]

lemma matchIdxsFrom_head (P : List Str → Bool) :
    ∀ (rows : List (List Str)) (off i : Nat) (rest : List Nat),
      matchIdxsFrom P off rows = i :: rest →
      off ≤ i ∧ i - off < rows.length ∧ P (rows.getD (i - off) []) = true ∧
        ∀ j, j < i - off → P (rows.getD j []) = false := by
  intro rows
  induction rows with
  | nil => intro off i rest h; simp [matchIdxsFrom] at h
  | cons r rs ih =>
    intro off i rest h
    by_cases hr : P r
    · rw [matchIdxsFrom, if_pos hr] at h
      injection h with h1 h2
      subst h1
      refine ⟨Nat.le_refl _, ?_, ?_, ?_⟩
      · simp
      · simpa using hr
      · intro j hj
        omega
    · rw [matchIdxsFrom, if_neg hr] at h
      obtain ⟨h1, h2, h3, h4⟩ := ih (off + 1) i rest h
      have hio : 1 ≤ i - off := by omega
      refine ⟨by omega, by simp; omega, ?_, ?_⟩
      · have : i - off = (i - (off + 1)) + 1 := by omega
        rw [this]
        simpa using h3
      · intro j hj
        match j with
        | 0 => simpa using hr
        | j + 1 =>
          have : j < i - (off + 1) := by omega
          simpa using h4 j this

lemma matchIdxsFrom_append (P : List Str → Bool) :
    ∀ (xs ys : List (List Str)) (off : Nat),
      matchIdxsFrom P off (xs ++ ys)
        = matchIdxsFrom P off xs ++ matchIdxsFrom P (off + xs.length) ys := by
  intro xs
  induction xs with
  | nil => intro ys off; simp [matchIdxsFrom]
  | cons r rs ih =>
    intro ys off
    have hoff : off + 1 + rs.length = off + (rs.length + 1) := by omega
    by_cases hr : P r
    · rw [List.cons_append, matchIdxsFrom, if_pos hr, ih]
      rw [matchIdxsFrom, if_pos hr, List.cons_append, List.length_cons, hoff]
    · rw [List.cons_append, matchIdxsFrom, if_neg hr, ih]
      rw [matchIdxsFrom, if_neg hr, List.length_cons, hoff]

lemma matchIdxsFrom_nil_of_none (P : List Str → Bool) :
    ∀ (rows : List (List Str)) (off : Nat),
      (∀ row ∈ rows, P row = false) → matchIdxsFrom P off rows = [] := by
  intro rows
  induction rows with
  | nil => intro off _; rfl
  | cons r rs ih =>
    intro off h
    rw [matchIdxsFrom, if_neg, ih]
    · intro row hrow
      exact h row (List.mem_cons_of_mem _ hrow)
    · simp [h r (List.mem_cons_self r rs)]

/-- Claim C3 (amended): the lookup shared by update and delete is invariant
under reformatting of the query key and returns the index of the first row
whose normalized ID cell equals the normalized key (duplicates are never
removed — the table is not changed); when at least two rows match, the
update branch — and only it, the delete branch is silent — warns; and a
freshly inserted row whose normalized key matches no earlier row is found
at its own (last) index, without a warning. -/
theorem c3_findByKey_first_match (rutIdx : Nat) (rows : List (List Str)) (key : Str) :
    (∀ key', clean_rut key = clean_rut key' →
      findByKey rutIdx rows key = findByKey rutIdx rows key' ∧
      updateWarnsMultiple rutIdx rows key = updateWarnsMultiple rutIdx rows key') ∧
    (∀ i, findByKey rutIdx rows key = some i →
      i < rows.length ∧ keyMatch rutIdx key (rows.getD i []) = true ∧
        ∀ j, j < i → keyMatch rutIdx key (rows.getD j []) = false) ∧
    (updateWarnsMultiple rutIdx rows key = true ↔
      2 ≤ rows.countP (keyMatch rutIdx key)) ∧
    (∀ r : List Str, (∀ row ∈ rows, keyMatch rutIdx key row = false) →
      keyMatch rutIdx key r = true →
      findByKey rutIdx (rows ++ [r]) key = some rows.length ∧
      updateWarnsMultiple rutIdx (rows ++ [r]) key = false) := by
  refine ⟨?_, ?_, ?_, ?_⟩
  · intro key' hk
    have hpred : keyMatch rutIdx key = keyMatch rutIdx key' := by
      funext row
      unfold keyMatch
      rw [hk]
    constructor
    · rw [findByKey, findByKey, hpred]
    · rw [updateWarnsMultiple, updateWarnsMultiple, hpred]
  · intro i h
    unfold findByKey at h
    rcases hm : matchIdxsFrom (keyMatch rutIdx key) 0 rows with _ | ⟨i₀, rest⟩
    · rw [hm] at h; exact absurd h (by simp)
    · rw [hm] at h
      simp only [Option.some.injEq] at h
      subst h
      obtain ⟨_, hlt, hP, hfirst⟩ := matchIdxsFrom_head _ rows 0 i₀ rest hm
      rw [Nat.sub_zero] at hlt hP hfirst
      exact ⟨hlt, hP, hfirst⟩
  · unfold updateWarnsMultiple
    rw [matchIdxsFrom_length]
    simp only [decide_eq_true_eq]
    omega
  · intro r hnone hr
    unfold findByKey updateWarnsMultiple
    rw [matchIdxsFrom_append, matchIdxsFrom_nil_of_none _ rows 0 hnone]
    simp [matchIdxsFrom, hr]

/-- Witness for C3 (amended): the key `"12.345.678-5"` and its undotted form
normalize identically, so lookup treats them the same. -/
theorem c3_findByKey_first_match_witness :
    findByKey 0 [[sl "12345678-5"]] (sl "12.345.678-5")
      = findByKey 0 [[sl "12345678-5"]] (sl "123456785") :=
  ((c3_findByKey_first_match 0 [[sl "12345678-5"]] (sl "12.345.678-5")).1
    (sl "123456785") (by decide)).1

/-- Counterexample to C3 as stated: a table already holding `"12345678-5"`
receives a second (just inserted) row with the same normalized key; looking
up that key returns index 0, not the inserted row's current index 1 (and
only the update branch would warn about the duplicate). -/
theorem c3_inserted_row_not_found_at_own_index :
    findByKey 0 ([[sl "12345678-5"]] ++ [[sl "12.345.678-5"]]) (sl "12.345.678-5")
        = some 0 ∧
    ([[sl "12345678-5"]] ++ [[sl "12.345.678-5"]]).length - 1 = 1 := by
  constructor
  · decide
  · decide

/-! ### The remaining validators and the cell-update loop -/

/-- Python `str.strip()` on ASCII text: drop whitespace at both ends. -/
def trimStr (s : Str) : Str :=
  ((s.dropWhile isPySpace).reverse.dropWhile isPySpace).reverse

/-- Python's regex class `\w` (ASCII): letters, digits, underscore. -/
def isWordChar (c : Char) : Bool := c.isAlphanum || c = '_'

/-- The regex class `[\w\.-]`. -/
def isWordDotDash (c : Char) : Bool := isWordChar c || c = '.' || c = '-'

/-- `GestorDocentes.validar_email`, the regex `^[\w\.-]+@[\w\.-]+\.\w+$`
made executable: a nonempty `[\w.-]` local part, one `@`, and a domain
whose final dot is followed by a nonempty all-`\w` segment and preceded by
a nonempty `[\w.-]` prefix. -/
def validar_email (e : Str) : Bool :=
  let localPart := e.takeWhile (fun c => !(c = '@'))
  match e.drop localPart.length with
  | [] => false
  | _ :: domain =>
    decide (localPart ≠ []) && localPart.all isWordDotDash &&
      (let rev := domain.reverse
       let tld := rev.takeWhile isWordChar
       let afterTld := rev.drop tld.length
       decide (tld ≠ []) && decide (afterTld.headD ' ' = '.') &&
         decide (afterTld.tail ≠ []) && afterTld.tail.all isWordDotDash)

/-- `GestorDocentes.validar_telefono`: strip spaces, hyphens and parentheses;
the rest must be all digits with length in `[7, 15]`. -/
def validar_telefono (t : Str) : Bool :=
  let s := t.filter (fun c => !(c = ' ' || c = '-' || c = '(' || c = ')'))
  s.all Char.isDigit && decide (7 ≤ s.length) && decide (s.length ≤ 15)

/-- The session's role bindings (`col_rut`, `col_email`, `col_tel`), with
columns identified by position; `none` is an unbound role. -/
structure Roles where
  rut : Option Nat
  email : Option Nat
  tel : Option Nat

/-- One column step of the update loop (menu option 4): strip the response;
empty keeps the current value; a bound role validates (the RUT additionally
being formatted before storage) and keeps the previous value on failure;
an unbound column stores the stripped response. The `elif` order of the
source gives the RUT binding precedence over email, and email over phone. -/
def updateCell (roles : Roles) (j : Nat) (old input : Str) : Str :=
  if trimStr input = [] then old
  else if roles.rut = some j then
    if validar_rut (trimStr input) then format_rut (trimStr input) else old
  else if roles.email = some j then
    if validar_email (trimStr input) then trimStr input else old
  else if roles.tel = some j then
    if validar_telefono (trimStr input) then trimStr input else old
  else trimStr input

/-- The whole update pass: every column is processed with its own response,
independently of the outcome at other columns. -/
def updateRow (roles : Roles) (row inputs : List Str) : List Str :=
  (List.range row.length).map fun j => updateCell roles j (row.getD j []) (inputs.getD j [])

lemma updateRow_length (roles : Roles) (row inputs : List Str) :
    (updateRow roles row inputs).length = row.length := by
  unfold updateRow
  simp

lemma updateRow_getD (roles : Roles) (row inputs : List Str) (j : Nat)
    (hj : j < row.length) :
    (updateRow roles row inputs).getD j []
      = updateCell roles j (row.getD j []) (inputs.getD j []) := by
  unfold updateRow
  rw [List.getD_eq_getElem _ _ (by simpa using hj)]
  simp

lemma format_rut_ne_nil (r : Str) (h : r ≠ []) : format_rut r ≠ [] := by
  simp only [format_rut]
  split_ifs
  · exact h
  · simp

/-- Claim C7: updating a cell of a bound role re-validates the new value;
an invalid value leaves the cell unchanged while the rest of the row is
still processed column by column, and a valid value replaces the cell (the
RUT formatted before storage). -/
theorem c7_update_bound_role_reject_and_retain (roles : Roles) (row inputs : List Str)
    (j : Nat) (hj : j < row.length) :
    (updateRow roles row inputs).length = row.length ∧
    (updateRow roles row inputs).getD j []
      = updateCell roles j (row.getD j []) (inputs.getD j []) ∧
    (roles.rut = some j → trimStr (inputs.getD j []) ≠ [] →
      (validar_rut (trimStr (inputs.getD j [])) = false →
        (updateRow roles row inputs).getD j [] = row.getD j []) ∧
      (validar_rut (trimStr (inputs.getD j [])) = true →
        (updateRow roles row inputs).getD j [] = format_rut (trimStr (inputs.getD j [])))) ∧
    (roles.rut ≠ some j → roles.email = some j → trimStr (inputs.getD j []) ≠ [] →
      (validar_email (trimStr (inputs.getD j [])) = false →
        (updateRow roles row inputs).getD j [] = row.getD j []) ∧
      (validar_email (trimStr (inputs.getD j [])) = true →
        (updateRow roles row inputs).getD j [] = trimStr (inputs.getD j []))) ∧
    (roles.rut ≠ some j → roles.email ≠ some j → roles.tel = some j →
      trimStr (inputs.getD j []) ≠ [] →
      (validar_telefono (trimStr (inputs.getD j [])) = false →
        (updateRow roles row inputs).getD j [] = row.getD j []) ∧
      (validar_telefono (trimStr (inputs.getD j [])) = true →
        (updateRow roles row inputs).getD j [] = trimStr (inputs.getD j []))) := by
  refine ⟨updateRow_length roles row inputs, updateRow_getD roles row inputs j hj, ?_, ?_, ?_⟩
  · intro hrole hnv
    rw [updateRow_getD roles row inputs j hj]
    unfold updateCell
    rw [if_neg hnv, if_pos hrole]
    constructor
    · intro hv; rw [hv]; rfl
    · intro hv; rw [hv]; rfl
  · intro hrut hrole hnv
    rw [updateRow_getD roles row inputs j hj]
    unfold updateCell
    rw [if_neg hnv, if_neg hrut, if_pos hrole]
    constructor
    · intro hv; rw [hv]; rfl
    · intro hv; rw [hv]; rfl
  · intro hrut hemail hrole hnv
    rw [updateRow_getD roles row inputs j hj]
    unfold updateCell
    rw [if_neg hnv, if_neg hrut, if_neg hemail, if_pos hrole]
    constructor
    · intro hv; rw [hv]; rfl
    · intro hv; rw [hv]; rfl

/-- Witness for C7: an invalid RUT offered for the bound ID column of a
one-column row is rejected and the stored value retained. -/
theorem c7_update_bound_role_reject_and_retain_witness :
    (updateRow ⟨some 0, none, none⟩ [sl "12345678-5"] [sl "11111111-9"]).getD 0 []
      = sl "12345678-5" :=
  ((c7_update_bound_role_reject_and_retain ⟨some 0, none, none⟩
      [sl "12345678-5"] [sl "11111111-9"] 0 (by decide)).2.2.1 rfl
      (by decide)).1 (by decide)

/-- Claim C10: in the update loop an empty (or all-whitespace) response
keeps the stored value of any column, bound or not, and no cell can become
the empty string through an update unless it already was empty. -/
theorem c10_empty_update_input_is_keep (roles : Roles) (row inputs : List Str)
    (j : Nat) (hj : j < row.length) :
    (trimStr (inputs.getD j []) = [] →
      (updateRow roles row inputs).getD j [] = row.getD j []) ∧
    ((updateRow roles row inputs).getD j [] = [] → row.getD j [] = []) := by
  constructor
  · intro h0
    rw [updateRow_getD roles row inputs j hj]
    unfold updateCell
    rw [if_pos h0]
  · intro hc
    rw [updateRow_getD roles row inputs j hj] at hc
    unfold updateCell at hc
    by_cases h0 : trimStr (inputs.getD j []) = []
    · rwa [if_pos h0] at hc
    · rw [if_neg h0] at hc
      by_cases h1 : roles.rut = some j
      · rw [if_pos h1] at hc
        rcases hv : validar_rut (trimStr (inputs.getD j [])) with _ | _
        · rwa [hv, if_neg (by simp)] at hc
        · rw [hv, if_pos rfl] at hc
          exact absurd hc (format_rut_ne_nil _ h0)
      · rw [if_neg h1] at hc
        by_cases h2 : roles.email = some j
        · rw [if_pos h2] at hc
          rcases hv : validar_email (trimStr (inputs.getD j [])) with _ | _
          · rwa [hv, if_neg (by simp)] at hc
          · rw [hv, if_pos rfl] at hc
            exact absurd hc h0
        · rw [if_neg h2] at hc
          by_cases h3 : roles.tel = some j
          · rw [if_pos h3] at hc
            rcases hv : validar_telefono (trimStr (inputs.getD j [])) with _ | _
            · rwa [hv, if_neg (by simp)] at hc
            · rw [hv, if_pos rfl] at hc
              exact absurd hc h0
          · rw [if_neg h3] at hc
            exact absurd hc h0

/-- Witness for C10: an all-whitespace response leaves a plain cell alone. -/
theorem c10_empty_update_input_is_keep_witness :
    (updateRow ⟨none, none, none⟩ [sl "hola"] [sl "  "]).getD 0 [] = sl "hola" :=
  (c10_empty_update_input_is_keep ⟨none, none, none⟩ [sl "hola"] [sl "  "] 0
      (by decide)).1 (by decide)

/-! ### Locking, backup and the save path

The file-system effects of `acquire_lock`, `release_lock`, `backup` and
`guardar` are modelled as an event trace over an environment recording which
operations would succeed. Time is discrete: the sentinel-presence function is
sampled once per 1-second poll, so poll index = elapsed seconds. -/

/-- Outcome of `acquire_lock`: the returned boolean and whether this call
wrote the sentinel file. -/
structure LockResult where
  res : Bool
  created : Bool
deriving DecidableEq

/-- The polling loop of `acquire_lock`, with enough fuel to reach the
timeout check: at poll `k`, a present sentinel either times out
(`k > timeout`, returning failure without touching the sentinel) or is
retried after one second; an absent sentinel is claimed by writing the
file (`writeOk` tells whether that write succeeds). -/
def acquireLoop (present : Nat → Bool) (timeout : Nat) (writeOk : Bool) :
    Nat → Nat → LockResult
  | _, 0 => ⟨false, false⟩
  | k, fuel + 1 =>
    if present k then
      if k > timeout then ⟨false, false⟩
      else acquireLoop present timeout writeOk (k + 1) fuel
    else if writeOk then ⟨true, true⟩ else ⟨false, false⟩

/-- `GestorDocentes.acquire_lock` over a sentinel-presence history. -/
def acquire_lock (present : Nat → Bool) (timeout : Nat) (writeOk : Bool) : LockResult :=
  acquireLoop present timeout writeOk 0 (timeout + 2)

/-- File-system events of a save. -/
inductive Ev : Type
  | lockCreated
  | backupTried
  | backupFailed
  | fileWritten
  | writeFailed
  | lockRemoved
  | abortedNoLock
deriving DecidableEq

/-- Environment of one `guardar` call: whether the backing file exists,
whether the backup copy, the spreadsheet write and the lock acquisition
succeed. -/
structure Env where
  fileExists : Bool
  backupOk : Bool
  writeOk : Bool
  lockAcquired : Bool

/-- `GestorDocentes.backup`: no-op when the backing file is absent,
otherwise a copy attempt whose failure is logged and swallowed. -/
def backupEvents (env : Env) : List Ev :=
  if env.fileExists then
    Ev.backupTried :: (if env.backupOk then [] else [Ev.backupFailed])
  else []

/-- `GestorDocentes.guardar`: abort when the lock cannot be acquired;
otherwise back up an existing file, write the table (exceptions caught),
and release the lock on the `finally` path. -/
def guardar (env : Env) : List Ev :=
  if env.lockAcquired then
    Ev.lockCreated ::
      ((if env.fileExists then backupEvents env else []) ++
        (if env.writeOk then [Ev.fileWritten] else [Ev.writeFailed]) ++
        [Ev.lockRemoved])
  else [Ev.abortedNoLock]

/-- Counterexample to C2 as stated: with the backing file present, the
backup failing and the write succeeding, `guardar` still writes the file —
the failed backup does not prevent the overwrite. -/
theorem c2_failed_backup_still_overwrites :
    Ev.backupFailed ∈ guardar ⟨true, false, true, true⟩ ∧
    Ev.fileWritten ∈ guardar ⟨true, false, true, true⟩ := by
  constructor
  · decide
  · decide

/-- Claim C2 (amended): a failed backup of an existing backing file is only
logged; the save proceeds fail-open, and whenever the write itself succeeds
the backing file is overwritten regardless of the backup outcome. -/
theorem c2_guardar_fail_open (env : Env) (hl : env.lockAcquired = true)
    (hw : env.writeOk = true) :
    Ev.fileWritten ∈ guardar env ∧
    (env.fileExists = true → env.backupOk = false → Ev.backupFailed ∈ guardar env) := by
  obtain ⟨fe, bo, wo, la⟩ := env
  cases fe <;> cases bo <;> cases wo <;> cases la <;>
    simp_all <;> decide

/-- Witness for C2 (amended) at a concrete environment. -/
theorem c2_guardar_fail_open_witness :
    Ev.fileWritten ∈ guardar ⟨true, true, true, true⟩ :=
  (c2_guardar_fail_open ⟨true, true, true, true⟩ rfl rfl).1

/-- Claim C9: whenever `guardar` acquired the lock (the sentinel was
created), the very last file-system event before returning is the sentinel
removal, on the success and on the failure path alike; when acquisition
failed no sentinel was created and none is removed. -/
theorem c9_guardar_releases_lock (env : Env) :
    (env.lockAcquired = true →
      Ev.lockCreated ∈ guardar env ∧ (guardar env).getLast? = some Ev.lockRemoved) ∧
    (env.lockAcquired = false →
      Ev.lockCreated ∉ guardar env ∧ Ev.lockRemoved ∉ guardar env) := by
  obtain ⟨fe, bo, wo, la⟩ := env
  cases fe <;> cases bo <;> cases wo <;> cases la <;> exact ⟨by decide, by decide⟩

/-- Witness for C9: a failed write still ends with the sentinel removal. -/
theorem c9_guardar_releases_lock_witness :
    (guardar ⟨true, true, false, true⟩).getLast? = some Ev.lockRemoved :=
  ((c9_guardar_releases_lock ⟨true, true, false, true⟩).1 rfl).2

lemma acquireLoop_timeout (present : Nat → Bool) (timeout : Nat) (writeOk : Bool)
    (hall : ∀ j, j ≤ timeout + 1 → present j = true) :
    ∀ fuel k, k ≤ timeout + 1 → timeout + 2 ≤ k + fuel →
      acquireLoop present timeout writeOk k fuel = ⟨false, false⟩ := by
  intro fuel
  induction fuel with
  | zero => intro k hk hf; rfl
  | succ fuel ih =>
    intro k hk hf
    rw [acquireLoop, if_pos (hall k hk)]
    by_cases hko : k > timeout
    · rw [if_pos hko]
    · rw [if_neg hko]
      exact ih (k + 1) (by omega) (by omega)

lemma acquireLoop_success (present : Nat → Bool) (timeout : Nat) (writeOk : Bool) :
    ∀ fuel k m, k ≤ m → m ≤ timeout + 1 → present m = false →
      (∀ j, j < m → present j = true) → timeout + 2 ≤ k + fuel →
      acquireLoop present timeout writeOk k fuel
        = if writeOk then ⟨true, true⟩ else ⟨false, false⟩ := by
  intro fuel
  induction fuel with
  | zero => intro k m h1 h2 _ _ hf; omega
  | succ fuel ih =>
    intro k m h1 h2 hm hbefore hf
    rcases Nat.eq_or_lt_of_le h1 with heq | hlt
    · subst heq
      rw [acquireLoop, hm]
      simp only [Bool.false_eq_true, if_false]
    · rw [acquireLoop, if_pos (hbefore k hlt), if_neg (by omega)]
      exact ih (k + 1) m (by omega) h2 hm hbefore (by omega)

/-- Claim C8: with no sentinel present, acquisition succeeds immediately and
creates the sentinel; if the sentinel disappears at some poll within the
timeout, acquisition succeeds; if the sentinel stays for every poll up to
and including the timeout check, acquisition returns false, creates nothing
(the existing sentinel is untouched), and a `guardar` whose acquisition
failed that way performs no write. -/
theorem c8_acquire_lock_poll (present : Nat → Bool) (timeout : Nat) :
    (present 0 = false → acquire_lock present timeout true = ⟨true, true⟩) ∧
    (∀ m, m ≤ timeout → present m = false →
      (acquire_lock present timeout true).res = true) ∧
    ((∀ j, j ≤ timeout + 1 → present j = true) →
      acquire_lock present timeout true = ⟨false, false⟩ ∧
      ∀ fe bo wo, Ev.fileWritten
        ∉ guardar ⟨fe, bo, wo, (acquire_lock present timeout true).res⟩) := by
  refine ⟨?_, ?_, ?_⟩
  · intro h0
    unfold acquire_lock
    rw [acquireLoop, h0]
    simp
  · intro m hm h
    have hP : ∃ j, present j = false := ⟨m, h⟩
    have hm0 := Nat.find_spec hP
    have hle : Nat.find hP ≤ m := Nat.find_min' hP h
    have hbefore : ∀ j, j < Nat.find hP → present j = true := by
      intro j hj
      have := Nat.find_min hP hj
      simpa using this
    unfold acquire_lock
    rw [acquireLoop_success present timeout true (timeout + 2) 0 (Nat.find hP)
      (by omega) (by omega) hm0 hbefore (by omega)]
    rfl
  · intro hall
    have h := acquireLoop_timeout present timeout true hall (timeout + 2) 0
      (by omega) (by omega)
    refine ⟨h, ?_⟩
    intro fe bo wo
    unfold acquire_lock at h ⊢
    rw [h]
    simp [guardar]

/-- Witness for C8: with no sentinel ever present, acquisition with a
5-second timeout succeeds at once and creates the sentinel. -/
theorem c8_acquire_lock_poll_witness :
    acquire_lock (fun _ => false) 5 true = ⟨true, true⟩ :=
  (c8_acquire_lock_poll (fun _ => false) 5).1 rfl

/-! ### Search (`GestorDocentes.buscar`)

The optional `unidecode` transliteration is a parameter `t` mapping each
character to its replacement characters; `fun c => [c]` is the
transliteration-unavailable fallback. -/

/-- Normalization of a cell value: `unidecode(str(val or '').lower())`. -/
def normCell (t : Char → List Char) (v : Str) : Str :=
  (v.map Char.toLower).flatMap t

/-- Normalization of the query: `unidecode(criterio.strip().lower())` —
note the `strip()` applied to the query only. -/
def normQuery (t : Char → List Char) (q : Str) : Str :=
  ((trimStr q).map Char.toLower).flatMap t

/-- Python's substring test `needle in hay` for the character-list model. -/
def containsSub (needle hay : Str) : Bool :=
  hay.tails.any fun s => needle.isPrefixOf s

/-- `GestorDocentes.buscar`: keep the rows in which some column's
normalized value contains the normalized query. -/
def buscar (t : Char → List Char) (rows : List (List Str)) (q : Str) : List (List Str) :=
  rows.filter fun r => r.any fun v => containsSub (normQuery t q) (normCell t v)

/-- The match predicate exactly as claim C4 words it: the query is
lowercased (and transliterated) but not stripped of whitespace. -/
def normQueryClaim (t : Char → List Char) (q : Str) : Str :=
  (q.map Char.toLower).flatMap t

/-- Search as claim C4 describes it, for comparison with `buscar`. -/
def buscarClaim (t : Char → List Char) (rows : List (List Str)) (q : Str) : List (List Str) :=
  rows.filter fun r => r.any fun v => containsSub (normQueryClaim t q) (normCell t v)

lemma containsSub_nil (hay : Str) : containsSub [] hay = true := by
  cases hay with
  | nil => rfl
  | cons a as =>
    unfold containsSub
    rw [List.tails]
    simp [List.isPrefixOf]

/-- Counterexample to C4 as stated: the code strips the query before
normalizing, the claim's normalization does not. For the query `"a "` and
the single-cell table `[["ab"]]` (transliteration unavailable), the code
returns the row while the claim's predicate matches nothing. -/
theorem c4_query_is_stripped_counterexample :
    buscar (fun c => [c]) [[sl "ab"]] (sl "a ") = [[sl "ab"]] ∧
    buscarClaim (fun c => [c]) [[sl "ab"]] (sl "a ") = [] := by
  constructor
  · decide
  · decide

/-- Claim C4 (amended): `buscar` returns exactly the rows in which the
normalized value (lowercased, transliterated when available) of at least
one column contains the normalized **stripped** query as a substring, in
their original order; a query that strips to the empty string returns every
row (every row having at least one column). -/
theorem c4_buscar_normalized_substring (t : Char → List Char)
    (rows : List (List Str)) (q : Str) :
    (∀ r, r ∈ buscar t rows q ↔
      r ∈ rows ∧ (r.any fun v => containsSub (normQuery t q) (normCell t v)) = true) ∧
    (buscar t rows q).Sublist rows ∧
    (trimStr q = [] → (∀ r ∈ rows, r ≠ []) → buscar t rows q = rows) := by
  refine ⟨?_, ?_, ?_⟩
  · intro r
    unfold buscar
    exact List.mem_filter
  · exact List.filter_sublist rows
  · intro hq hne
    unfold buscar
    rw [List.filter_eq_self]
    intro r hr
    have hnnil := hne r hr
    have hq0 : normQuery t q = [] := by
      unfold normQuery
      rw [hq]
      rfl
    rw [hq0]
    cases r with
    | nil => exact absurd rfl hnnil
    | cons v vs => simp [containsSub_nil]

/-- Witness for C4 (amended): the empty query returns the full table. -/
theorem c4_buscar_normalized_substring_witness :
    buscar (fun c => [c]) [[sl "x"]] [] = [[sl "x"]] :=
  (c4_buscar_normalized_substring (fun c => [c]) [[sl "x"]] []).2.2 rfl (by decide)

end Gestor
